import Mathlib

/-!
Verification of the retrieval-augmented multi-agent chatbot core
(`agent_manager`, `knowledge_base`, `tools`) against its natural-language
specification.  Python strings are modelled as Lean `String`s (sequences of
Unicode code points, matching Python's per-code-point iteration); Python
floats are modelled as exact rationals (`ℚ`) except for the L2 norm of the
fallback embedding, which needs a square root and is modelled over `ℝ`.
-/

/-! ## Python string primitives

Models of the Python `str` methods the source uses: `strip`, `lower`,
`upper`, whitespace `split`, `split(sep)` for the two separators the
typewriter uses, and the trailing slice `l[-k:]`.  These operate on
`List Char` (a Python string is a sequence of code points); `String`
wrappers are provided where convenient. -/

/-- The characters Python's `str.strip()` and `str.split()` treat as
whitespace (the CPython `str.isspace` set). -/
def pyWhitespace : List Char :=
  [' ', '\t', '\n', '\r', '\x0b', '\x0c',
   '\x1c', '\x1d', '\x1e', '\x1f', '\x85', '\xa0',
   ' ', ' ', ' ', ' ', ' ', ' ', ' ',
   ' ', ' ', ' ', ' ', ' ', ' ', ' ',
   ' ', ' ', '　']

/-- Python `str.isspace` on a single character. -/
def pyIsSpace (c : Char) : Bool := pyWhitespace.contains c

/-- Python `str.strip()` on a list of code points: drop whitespace from both
ends. -/
def pyStripL (l : List Char) : List Char :=
  ((l.dropWhile pyIsSpace).reverse.dropWhile pyIsSpace).reverse

/-- Python `str.strip()` on a `String`. -/
def pyStrip (s : String) : String := String.mk (pyStripL s.toList)

/-- Python `str.lower()` (ASCII model: the source's tags and queries are
Chinese or ASCII, for which `Char.toLower` agrees with Python). -/
def pyLower (s : String) : String := String.mk (s.toList.map Char.toLower)

/-- Python `str.upper()` (ASCII model, as for `pyLower`). -/
def pyUpper (s : String) : String := String.mk (s.toList.map Char.toUpper)

/-- Helper of `pyWords`: accumulates the current word (reversed) while
scanning. -/
def pyWordsAux : List Char → List Char → List (List Char)
  | [], acc => if acc.isEmpty then [] else [acc.reverse]
  | c :: rest, acc =>
    if pyIsSpace c then
      if acc.isEmpty then pyWordsAux rest [] else acc.reverse :: pyWordsAux rest []
    else pyWordsAux rest (c :: acc)

/-- Python `str.split()` with no argument: maximal runs of non-whitespace
characters, empties dropped. -/
def pyWords (l : List Char) : List (List Char) := pyWordsAux l []

/-- Python's substring test `pat in l`: does `pat` occur contiguously in
`l`?  (`"" in s` is `True` in Python, matching `isSubL [] l = true`.) -/
def isSubL (pat : List Char) : List Char → Bool
  | [] => pat.isEmpty
  | c :: rest => pat.isPrefixOf (c :: rest) || isSubL pat rest

/-- Python `l[-k:]` for `k = top_k`: the last `k` elements, or the whole
list when `k = 0` (Python's `l[-0:]` is `l[0:]`, the whole list). -/
def pyTailSlice {α : Type} (k : ℕ) (l : List α) : List α :=
  if k = 0 then l else l.drop (l.length - k)

/-- Python `text.split('\n')` on code points: split at every newline,
keeping empty pieces, as `str.split` with an explicit separator does. -/
def splitN : List Char → List (List Char)
  | [] => [[]]
  | c :: rest =>
    if c = '\n' then [] :: splitN rest
    else
      match splitN rest with
      | [] => [[c]]
      | p :: ps => (c :: p) :: ps

/-- Python `text.split('\n\n')` on code points: split at every
non-overlapping occurrence of two consecutive newlines, scanning left to
right, keeping empty pieces. -/
def splitNN : List Char → List (List Char)
  | '\n' :: '\n' :: rest => [] :: splitNN rest
  | c :: rest =>
    match splitNN rest with
    | [] => [[c]]
    | p :: ps => (c :: p) :: ps
  | [] => [[]]

/-- Joins pieces with a single `'\n'` between them (the inverse of
`splitN`). -/
def sepN : List (List Char) → List Char
  | [] => []
  | [x] => x
  | x :: y :: r => x ++ '\n' :: sepN (y :: r)

/-- Joins pieces with `"\n\n"` between them (the inverse of `splitNN`). -/
def sepNN : List (List Char) → List Char
  | [] => []
  | [x] => x
  | x :: y :: r => x ++ '\n' :: '\n' :: sepNN (y :: r)

/-! ## The typewriter streamer (`AgentManager._typewriter_output`)

The generator yields strings (single characters, `"\n"`, or `"\n\n"`); the
model returns the list of yielded chunks as `List (List Char)`.  Delays
(`time.sleep`) are presentation-only and not modelled. -/

/-- The chunks yielded for one line of a paragraph: its characters one by
one when the line has non-whitespace content, a bare `'\n'` otherwise
(source lines 181–188 of `_typewriter_output`). -/
def lineOut (line : List Char) : List (List Char) :=
  if (pyStripL line).isEmpty then [['\n']]
  else line.map (fun c => [c])

/-- The chunks yielded for the lines of one paragraph, with a `'\n'`
separator after every line but the last (source lines 180–193). -/
def linesOut : List (List Char) → List (List Char)
  | [] => []
  | [l] => lineOut l
  | l :: l2 :: rest => lineOut l ++ [['\n']] ++ linesOut (l2 :: rest)

/-- The chunks yielded for the paragraph list: a whitespace-only paragraph
yields a bare `"\n\n"` and `continue`s (skipping its trailing separator);
otherwise its lines are streamed and, when the paragraph is not last, a
`"\n\n"` separator follows (source lines 174–197). -/
def parasOut : List (List Char) → List (List Char)
  | [] => []
  | [p] => if (pyStripL p).isEmpty then [['\n', '\n']] else linesOut (splitN p)
  | p :: p2 :: rest =>
    (if (pyStripL p).isEmpty then [['\n', '\n']]
     else linesOut (splitN p) ++ [['\n', '\n']]) ++ parasOut (p2 :: rest)

/-- `AgentManager._typewriter_output(text)`: the full chunk sequence the
generator yields.  An empty text yields nothing (source line 168). -/
def typewriterOutputL (text : List Char) : List (List Char) :=
  if text.isEmpty then [] else parasOut (splitNN text)

/-- The concatenation of all chunks `_typewriter_output(text)` yields —
what `generate_response_with_typewriter` accumulates into
`full_response`. -/
def typewriterConcat (s : String) : String :=
  String.mk (typewriterOutputL s.toList).flatten

/-! ## The response pipeline (`AgentManager`)

The LLM and embedding endpoints are remote; a call either raises (network
error, malformed body — `ApiResult.exn`) or returns an HTTP status with the
parsed answer content (`ApiResult.http`).  Python exceptions are modelled
with the `Except String` monad: a `try`/`except` block is a `match` that
turns `.error` into a normal value.  The AutoGen group-chat run inside the
`try` of `_execute_autogen_workflow` is abstracted as
`primary : Except String String` (its final extracted response, or the
exception it raised). -/

/-- Outcome of one `requests.post` call to the chat-completion endpoint:
an exception, or a status code together with the content that the
response's `choices[0].message.content` field would yield. -/
inductive ApiResult : Type
  | exn (msg : String)
  | http (status : ℕ) (content : String)

/-- Lifts an `ApiResult` into the exception monad: a raised exception
becomes `.error`, a completed HTTP exchange `.ok`. -/
def httpCall (r : ApiResult) : Except String (ℕ × String) :=
  match r with
  | .exn m => .error m
  | .http s c => .ok (s, c)

/-- Body of the `try` block of `AgentManager._fallback_response`: the design
call, its status check, the synthesis call, its status check (checkpoint
source lines 291–367). -/
def fallbackBody (design final : ApiResult) : Except String String :=
  match httpCall design with
  | .error err => .error err
  | .ok d =>
    if d.1 ≠ 200 then .ok ("设计阶段API错误: " ++ toString d.1)
    else
      match httpCall final with
      | .error err => .error err
      | .ok f =>
        if f.1 = 200 then .ok f.2
        else .ok ("最终整合API错误: " ++ toString f.1)

/-- `AgentManager._fallback_response`: the `try` body with its `except`
handler, which turns any exception into the literal error string
`"备用方案失败: ..."` (checkpoint source lines 369–370). -/
def fallbackResponseE (design final : ApiResult) : Except String String :=
  match fallbackBody design final with
  | .ok s => .ok s
  | .error e => .ok ("备用方案失败: " ++ e)

/-- Strips the four internal stage markers and surrounding whitespace from
the group chat's final response (checkpoint source lines 274–279). -/
def stripMarkers (s : String) : String :=
  pyStrip ((((s.replace "【最终回答】" "").replace "【设计完成】" "").replace
    "【验证完成】" "").replace "【流程完成】" "")

/-- `AgentManager._execute_autogen_workflow`: on success the extracted
response is cleaned of markers (falling back to the literal
`"未能生成完整回答"` when empty); any exception is caught and answered by
`_fallback_response` (checkpoint source lines 199–287). -/
def executeWorkflowE (primary : Except String String)
    (design final : ApiResult) : Except String String :=
  match primary with
  | .ok s =>
    .ok (if stripMarkers s = "" then "未能生成完整回答" else stripMarkers s)
  | .error _ => fallbackResponseE design final

/-- The constant `Config.MAX_INTERACTION_COUNT`. -/
def MAX_INTERACTION_COUNT : ℕ := 5

/-- `AgentManager.generate_response_with_typewriter` together with
`generate_response`: the advisory message when the interaction budget is
exhausted; otherwise the AutoGen workflow, the short-response re-fallback
(responses under 20 code points after stripping), and the typewriter pass
whose yields are concatenated into the returned string.  `d1 f1` are the
fallback API calls issued from inside `_execute_autogen_workflow`; `d2 f2`
those of the re-fallback (checkpoint source lines 372–409). -/
def generateResponseE (count : ℕ) (primary : Except String String)
    (d1 f1 d2 f2 : ApiResult) : Except String String :=
  if MAX_INTERACTION_COUNT ≤ count then
    .ok "已达到最大交互次数。请重新开始对话。\n"
  else
    match executeWorkflowE primary d1 f1 with
    | .error err => .error err
    | .ok r =>
      match (if r = "" ∨ (pyStrip r).length < 20 then fallbackResponseE d2 f2
             else .ok r) with
      | .error err => .error err
      | .ok r2 => .ok (typewriterConcat r2)

/-- True when an `Except` computation completed without an uncaught
exception. -/
def exceptIsOk {ε α : Type} : Except ε α → Bool
  | .ok _ => true
  | .error _ => false

/-! ## Conversation history and the interaction budget (`AgentManager`) -/

/-- One entry of `conversation_history` (the `src/agent_manager.py`
variant; the checkpoint variant adds a wall-clock timestamp and strips
control characters, which does not affect the length/FIFO behaviour). -/
structure ConvTurn : Type where
  role : String
  content : String
deriving DecidableEq

/-- The mutable state `AgentManager` keeps across queries. -/
structure AgentState : Type where
  history : List ConvTurn
  count : ℕ
deriving DecidableEq

/-- `AgentManager._update_conversation_history`: append the user/assistant
pair, bump `interaction_count`, and keep only the last 8 entries when the
list exceeds 8 (source lines 200–208). -/
def updateConversationHistory (s : AgentState) (q r : String) : AgentState :=
  let h := s.history ++ [⟨"user", q⟩, ⟨"assistant", r⟩]
  { history := if 8 < h.length then h.drop (h.length - 8) else h,
    count := s.count + 1 }

/-- `AgentManager.reset_conversation`: clear the history and zero the
counter. -/
def resetConversation : AgentState := { history := [], count := 0 }

/-- The per-query state transition of
`generate_response_with_typewriter`: when the budget is exhausted the
advisory message is returned and the state is untouched; otherwise the
finished response text `resp` is streamed (its concatenated yields are the
return value) and the history is updated with the query and that value. -/
def processQuery (s : AgentState) (q resp : String) : String × AgentState :=
  if MAX_INTERACTION_COUNT ≤ s.count then
    ("已达到最大交互次数。请重新开始对话。\n", s)
  else
    (typewriterConcat resp, updateConversationHistory s q (typewriterConcat resp))

/-! ## The knowledge store (`KnowledgeBase`) -/

/-- One record of the knowledge store (`id`, `type`, `tags`, `content`;
the lazily attached embedding is carried separately by the vector
database). -/
structure KBRecord : Type where
  id : ℤ
  ktype : String
  tags : List String
  content : String
deriving DecidableEq, Inhabited

/-- The 4 seeded default records of `_load_knowledge_db` (checkpoint
source lines 35–60). -/
def defaultKnowledge : List KBRecord :=
  [⟨1, "protein_workflow", ["蛋白质", "结构预测", "3D可视化", "PDB"],
    "用户输入蛋白质序列（单条或多条）→ 验证序列有效性 → 调用 API 预测结构 → 展示 3D 结构、氨基酸分布和 Ramachandran 图 → 提供 PDB 文件下载"⟩,
   ⟨2, "fragment", ["验证", "序列有效性"],
    "序列有效性验证步骤：检查氨基酸字符是否有效，去除非法字符，验证序列长度"⟩,
   ⟨3, "fragment", ["API调用", "结构预测"],
    "使用AlphaFold2或RoseTTAFold API进行蛋白质结构预测"⟩,
   ⟨4, "other_workflow", ["基因分析", "序列比对"],
    "基因序列分析流程：输入DNA序列 → BLAST比对 → 基因注释 → 功能预测"⟩]

/-- The text a record is embedded from: tags joined by spaces, a space,
then the content (`f"{' '.join(item['tags'])} {item['content']}"`). -/
def recordText (r : KBRecord) : String :=
  String.intercalate " " r.tags ++ " " ++ r.content

/-- `KnowledgeBase._build_vector_db`: one embedding row per record, in
store order.  The embedding provider (remote API with deterministic
fallback) is abstracted as `embed`; rows have the provider's fixed
dimension `D`. -/
def buildVectorDb {D : ℕ} (embed : String → Fin D → ℚ)
    (data : List KBRecord) : List (Fin D → ℚ) :=
  data.map (fun item => embed (recordText item))

/-- `KnowledgeBase.add_knowledge`: the new record's id is
`max(existing ids) + 1`, or `1` on an empty store; the record is appended
(checkpoint source lines 95–115; the full updated list is then passed to
`_save_knowledge_db` and the vector database rebuilt over it). -/
def addKnowledge (data : List KBRecord) (ktype : String) (tags : List String)
    (content : String) : List KBRecord :=
  let newId : ℤ :=
    if 0 < data.length then ((data.map (fun r => r.id)).max?.getD 0) + 1 else 1
  data ++ [⟨newId, ktype, tags, content⟩]

/-! ## Embedding-similarity retrieval (`KnowledgeBase.retrieve_knowledge`)

The query embedding comes from the remote API (or its deterministic
fallback) and the similarity row is `cosine_similarity([q], vector_db)[0]`;
both are abstracted as the rational list `sims` (one similarity per record,
in store order).  The selection and ordering logic — `argsort`, the
trailing slice, the reversal, the mapping to result dicts — is modelled
exactly.  NumPy's default `argsort` is modelled as the stable ascending
argsort (its introsort falls back to a stable insertion sort below 16
elements, and the corpus here has 4). -/

/-- One retrieval result: `{content, similarity, type}`. -/
structure RetrievalResult : Type where
  content : String
  similarity : ℚ
  ktype : String
deriving DecidableEq

/-- The linear order on indices realised by a stable ascending argsort of
`sims`: smaller similarity first, ties by original (ascending) index. -/
def argRel (sims : List ℚ) (i j : ℕ) : Prop :=
  sims.getD i 0 < sims.getD j 0 ∨ (sims.getD i 0 = sims.getD j 0 ∧ i ≤ j)

instance argRelDecidable (sims : List ℚ) : DecidableRel (argRel sims) :=
  fun _ _ => inferInstanceAs (Decidable (_ ∨ _))

instance argRelTotal (sims : List ℚ) : IsTotal ℕ (argRel sims) where
  total := by
    intro i j
    unfold argRel
    rcases lt_trichotomy (sims.getD i 0) (sims.getD j 0) with h | h | h
    · exact Or.inl (Or.inl h)
    · rcases le_total i j with hij | hij
      · exact Or.inl (Or.inr ⟨h, hij⟩)
      · exact Or.inr (Or.inr ⟨h.symm, hij⟩)
    · exact Or.inr (Or.inl h)

instance argRelTrans (sims : List ℚ) : IsTrans ℕ (argRel sims) where
  trans := by
    intro a b c hab hbc
    unfold argRel at hab hbc ⊢
    rcases hab with h1 | ⟨e1, l1⟩
    · rcases hbc with h2 | ⟨e2, l2⟩
      · exact Or.inl (h1.trans h2)
      · exact Or.inl (lt_of_lt_of_le h1 e2.le)
    · rcases hbc with h2 | ⟨e2, l2⟩
      · exact Or.inl (lt_of_le_of_lt e1.le h2)
      · exact Or.inr ⟨e1.trans e2, l1.trans l2⟩

/-- `similarities.argsort()`: the indices `0..n-1` sorted by similarity
ascending, ties in original order. -/
def argsortStable (sims : List ℚ) : List ℕ :=
  List.insertionSort (argRel sims) (List.range sims.length)

/-- `similarities.argsort()[-top_k:][::-1]`. -/
def topIndices (sims : List ℚ) (top_k : ℕ) : List ℕ :=
  (pyTailSlice top_k (argsortStable sims)).reverse

/-- The result dict built for one selected index (checkpoint source lines
134–139). -/
def mkRetrievalResult (sims : List ℚ) (data : List KBRecord)
    (idx : ℕ) : RetrievalResult :=
  ⟨(data.getD idx default).content, sims.getD idx 0, (data.getD idx default).ktype⟩

/-- `KnowledgeBase.retrieve_knowledge` (the non-raising path): empty store
returns no results, otherwise the records at `topIndices` in that order
(checkpoint source lines 117–142). -/
def retrieveKnowledge (sims : List ℚ) (data : List KBRecord)
    (top_k : ℕ) : List RetrievalResult :=
  if data.length = 0 then []
  else (topIndices sims top_k).map (mkRetrievalResult sims data)

/-- The descending index order the claim describes ("ties broken by
original store order — stable sort"): larger similarity first, ties by
ascending index. -/
def argRelSpec (sims : List ℚ) (i j : ℕ) : Prop :=
  sims.getD j 0 < sims.getD i 0 ∨ (sims.getD i 0 = sims.getD j 0 ∧ i ≤ j)

instance argRelSpecDecidable (sims : List ℚ) : DecidableRel (argRelSpec sims) :=
  fun _ _ => inferInstanceAs (Decidable (_ ∨ _))

/-- Retrieval as the claim words it: take the `top_k` indices of largest
similarity with ties broken by original store order (a stable descending
sort), and map them to results in that order. -/
def retrieveSpecStable (sims : List ℚ) (data : List KBRecord)
    (top_k : ℕ) : List RetrievalResult :=
  if data.length = 0 then []
  else ((List.insertionSort (argRelSpec sims) (List.range sims.length)).take
    top_k).map (mkRetrievalResult sims data)

/-! ## Keyword-overlap fallback retrieval
(`KnowledgeBase._fallback_retrieval`) -/

/-- The keyword overlap score of one record: the number of its
(lowercased) tags occurring as substrings of the lowercased query, plus
`0.5` when some whitespace-separated word of the lowercased query occurs
in the lowercased content (source lines 156–167). -/
def fallbackScore (query : String) (item : KBRecord) : ℚ :=
  let ql := (pyLower query).toList
  let cl := (pyLower item.content).toList
  (((item.tags.map pyLower).filter
      (fun tag => isSubL tag.toList ql)).length : ℚ)
  + (if (pyWords ql).any (fun w => isSubL w cl) then 1/2 else 0)

/-- The result dict built for one record the fallback keeps: similarity
`min(score / 3, 0.9)` (source lines 170–174). -/
def mkFallbackResult (query : String) (item : KBRecord) : RetrievalResult :=
  ⟨item.content, min (fallbackScore query item / 3) (9/10), item.ktype⟩

/-- "Is sorted before": descending similarity.  Python's `list.sort` is
stable, as is `List.insertionSort`. -/
def simGE (a b : RetrievalResult) : Prop := b.similarity ≤ a.similarity

instance simGEDecidable : DecidableRel simGE :=
  fun _ _ => inferInstanceAs (Decidable (_ ≤ _))

instance simGETotal : IsTotal RetrievalResult simGE :=
  ⟨fun a b => le_total b.similarity a.similarity⟩

instance simGETrans : IsTrans RetrievalResult simGE :=
  ⟨fun _ _ _ h1 h2 => le_trans h2 h1⟩

/-- `KnowledgeBase._fallback_retrieval`: keep the records of strictly
positive score, sort by similarity descending (stable), truncate to
`top_k` (source lines 149–178). -/
def fallbackRetrieval (query : String) (data : List KBRecord)
    (top_k : ℕ) : List RetrievalResult :=
  ((data.filterMap (fun item =>
      if 0 < fallbackScore query item then some (mkFallbackResult query item)
      else none)).insertionSort simGE).take top_k

/-- The keyword overlap score as the claim words it, computed with
`countP` over the tags. -/
def specScore (query : String) (item : KBRecord) : ℚ :=
  ((item.tags.countP
      (fun tag => isSubL (pyLower tag).toList (pyLower query).toList)) : ℚ)
  + (if (pyWords (pyLower query).toList).any
        (fun w => isSubL w (pyLower item.content).toList) then 1/2 else 0)

/-- Fallback retrieval as the claim words it: filter to positive score,
map to results, sort descending, truncate. -/
def specFallbackRetrieval (query : String) (data : List KBRecord)
    (top_k : ℕ) : List RetrievalResult :=
  ((((data.filter (fun item => 0 < specScore query item)).map
      (fun item =>
        RetrievalResult.mk item.content (min (specScore query item / 3) (9/10))
          item.ktype)).insertionSort simGE)).take top_k

/-! ## The deterministic fallback embedding
(`BaiduEmbeddingAPI._generate_fallback_embedding`)

`np.random.seed(seed)` overwrites the global RNG state with a state that
depends only on `seed`; `np.random.randn(384)` then draws 384 floats from
it.  The RNG is modelled as an abstract state machine `NumpyRng` over a
state type `σ`, and the MD5-derived seed `int(md5(text)[:8], 16)` as an
abstract function `md5seed`.  The floats are idealised as reals so the
L2 norm is exact. -/

/-- The global NumPy RNG: `seedState` models `np.random.seed`,
`randn384` models `np.random.randn(384)` (the drawn vector and the
successor state). -/
structure NumpyRng (σ : Type) : Type where
  seedState : ℕ → σ
  randn384 : σ → (Fin 384 → ℝ) × σ

/-- The sum of squared entries of a vector (the square of its L2 norm). -/
noncomputable def sumSq (v : Fin 384 → ℝ) : ℝ := ∑ i, v i ^ 2

/-- The normalisation step: divide by `np.linalg.norm(embedding)` when the
norm is positive, else return the vector unchanged (source lines
343–346). -/
noncomputable def l2normalize (v : Fin 384 → ℝ) : Fin 384 → ℝ :=
  if 0 < Real.sqrt (sumSq v) then fun i => v i / Real.sqrt (sumSq v) else v

/-- `BaiduEmbeddingAPI._generate_fallback_embedding(text)` run when the
global RNG is in state `s0`: seed from the stable hash of the text
(overwriting `s0`), draw 384 values, L2-normalize (source lines
331–348). -/
noncomputable def generateFallbackEmbedding {σ : Type} (M : NumpyRng σ)
    (md5seed : String → ℕ) (text : String) (_s0 : σ) : (Fin 384 → ℝ) × σ :=
  let p := M.randn384 (M.seedState (md5seed text))
  (l2normalize p.1, p.2)

/-- A concrete RNG model for witnesses: seeding ignores the prior state
and the draw returns the first standard basis vector. -/
noncomputable def unitRng : NumpyRng Unit :=
  { seedState := fun _ => (),
    randn384 := fun _ => (fun i => if i = 0 then 1 else 0, ()) }

/-- A two-record store used to exhibit tie-breaking behaviour. -/
def recA : KBRecord := ⟨1, "t1", [], "A"⟩

/-- The second record of the tie-breaking store. -/
def recB : KBRecord := ⟨2, "t2", [], "B"⟩

/-! ## `ResearchTools.validate_protein_sequence` (`src/tools.py`) -/

/-- The twenty-letter amino-acid alphabet (`tools.py` line 15). -/
def validAminoAcids : List Char :=
  ['A', 'C', 'D', 'E', 'F', 'G', 'H', 'I', 'K', 'L',
   'M', 'N', 'P', 'Q', 'R', 'S', 'T', 'V', 'W', 'Y']

/-- The dict `validate_protein_sequence` returns. -/
structure SeqValidation : Type where
  is_valid : Bool
  invalid_chars : List Char
  length : ℕ
  cleaned_sequence : Option String
deriving DecidableEq

/-- `ResearchTools.validate_protein_sequence`: upper-case and strip the
input, collect the characters outside the alphabet in order, and report
validity, length and the cleaned sequence (source lines 13–26). -/
def validate_protein_sequence (s : String) : SeqValidation :=
  let seq := pyStrip (pyUpper s)
  let invalid := seq.toList.filter (fun c => !(validAminoAcids.contains c))
  { is_valid := invalid.length = 0,
    invalid_chars := invalid,
    length := seq.length,
    cleaned_sequence := if invalid.length = 0 then some seq else none }

/-! ## Lemmas about the Python string primitives -/

/-- A list all of whose characters are whitespace strips to nothing. -/
lemma pyStripL_eq_nil_of_all (l : List Char)
    (h : ∀ c ∈ l, pyIsSpace c = true) : pyStripL l = [] := by
  unfold pyStripL
  have h1 : l.dropWhile pyIsSpace = [] := List.dropWhile_eq_nil_iff.mpr h
  simp [h1]

/-- A list that strips to nothing is all whitespace. -/
lemma all_space_of_pyStripL_eq_nil (l : List Char)
    (h : pyStripL l = []) : ∀ c ∈ l, pyIsSpace c = true := by
  unfold pyStripL at h
  rw [List.reverse_eq_nil_iff, List.dropWhile_eq_nil_iff] at h
  have h2 : ∀ c ∈ l.dropWhile pyIsSpace, pyIsSpace c = true := by
    intro c hc
    exact h c (by simpa using hc)
  intro c hc
  rw [← List.takeWhile_append_dropWhile (p := pyIsSpace) (l := l),
    List.mem_append] at hc
  rcases hc with hc | hc
  · exact List.mem_takeWhile_imp hc
  · exact h2 c hc

/-- `splitN` never returns the empty list of pieces. -/
lemma splitN_ne_nil (l : List Char) : splitN l ≠ [] := by
  induction l with
  | nil => simp [splitN]
  | cons c rest ih =>
    by_cases hc : c = '\n'
    · simp [splitN, hc]
    · simp only [splitN, if_neg hc]
      rcases h : splitN rest with _ | ⟨p, ps⟩
      · simp
      · simp

/-- `splitNN` never returns the empty list of pieces. -/
lemma splitNN_ne_nil (l : List Char) : splitNN l ≠ [] := by
  induction l using splitNN.induct with
  | case1 rest ih => rw [splitNN.eq_1]; simp
  | case2 c rest hnot hnil ih => rw [splitNN.eq_2 c rest hnot, hnil]; simp
  | case3 c rest hnot p ps hcons ih => rw [splitNN.eq_2 c rest hnot, hcons]; simp
  | case4 => rw [splitNN.eq_3]; simp

/-- Unfolding `sepN` on a list of at least two pieces. -/
lemma sepN_cons (x : List Char) (r : List (List Char)) (h : r ≠ []) :
    sepN (x :: r) = x ++ '\n' :: sepN r := by
  cases r with
  | nil => exact absurd rfl h
  | cons y rs => rfl

/-- Unfolding `sepNN` on a list of at least two pieces. -/
lemma sepNN_cons (x : List Char) (r : List (List Char)) (h : r ≠ []) :
    sepNN (x :: r) = x ++ '\n' :: '\n' :: sepNN r := by
  cases r with
  | nil => exact absurd rfl h
  | cons y rs => rfl

/-- Unfolding `splitN` at a newline. -/
lemma splitN_newline (rest : List Char) :
    splitN ('\n' :: rest) = [] :: splitN rest := by
  simp [splitN]

/-- Joining the pieces of `splitN` with `'\n'` restores the original
list. -/
lemma sepN_splitN (l : List Char) : sepN (splitN l) = l := by
  induction l with
  | nil => simp [splitN, sepN]
  | cons c rest ih =>
    by_cases hc : c = '\n'
    · subst hc
      rw [splitN_newline, sepN_cons [] (splitN rest) (splitN_ne_nil rest)]
      simpa using ih
    · simp only [splitN, if_neg hc]
      rcases h : splitN rest with _ | ⟨p, ps⟩
      · exact absurd h (splitN_ne_nil rest)
      · rw [h] at ih
        cases ps with
        | nil => simpa [sepN] using congrArg (c :: ·) ih
        | cons q qs =>
          rw [sepN_cons (c :: p) (q :: qs) (by simp)]
          rw [sepN_cons p (q :: qs) (by simp)] at ih
          rw [List.cons_append]
          exact congrArg (c :: ·) ih

/-- Joining the pieces of `splitNN` with `"\n\n"` restores the original
list. -/
lemma sepNN_splitNN (l : List Char) : sepNN (splitNN l) = l := by
  induction l using splitNN.induct with
  | case1 rest ih =>
    rw [splitNN.eq_1, sepNN_cons [] (splitNN rest) (splitNN_ne_nil rest)]
    simpa using ih
  | case2 c rest hnot hnil ih => exact absurd hnil (splitNN_ne_nil rest)
  | case3 c rest hnot p ps hcons ih =>
    rw [splitNN.eq_2 c rest hnot, hcons]
    rw [hcons] at ih
    cases ps with
    | nil => simpa [sepNN] using congrArg (c :: ·) ih
    | cons q qs =>
      rw [sepNN_cons (c :: p) (q :: qs) (by simp)]
      rw [sepNN_cons p (q :: qs) (by simp)] at ih
      rw [List.cons_append]
      exact congrArg (c :: ·) ih
  | case4 => rfl

/-- A character of a piece occurs in the `'\n'`-joined list. -/
lemma mem_sepN (parts : List (List Char)) :
    ∀ part ∈ parts, ∀ c ∈ part, c ∈ sepN parts := by
  induction parts with
  | nil => simp
  | cons x r ih =>
    intro part hp c hc
    cases r with
    | nil =>
      have hx : part = x := by simpa using hp
      subst hx
      simpa [sepN] using hc
    | cons y rs =>
      rw [sepN_cons x (y :: rs) (by simp)]
      rcases List.mem_cons.mp hp with h | h
      · subst h
        exact List.mem_append.mpr (Or.inl hc)
      · exact List.mem_append.mpr (Or.inr (List.mem_cons.mpr
          (Or.inr (ih part h c hc))))

/-! ## Lemmas about the typewriter chunks -/

/-- Flattening per-character chunks restores the line. -/
lemma flatten_map_singleton (l : List Char) :
    (l.map (fun c => [c])).flatten = l := by
  induction l with
  | nil => rfl
  | cons c r ih => simp [ih]

/-- A line with non-whitespace content is streamed character-exactly. -/
lemma flatten_lineOut (line : List Char) (h : pyStripL line ≠ []) :
    (lineOut line).flatten = line := by
  unfold lineOut
  rw [if_neg (by simpa using h)]
  exact flatten_map_singleton line

/-- Streaming lines that all have non-whitespace content concatenates to
the `'\n'`-joined paragraph text. -/
lemma flatten_linesOut (ls : List (List Char))
    (h : ∀ l ∈ ls, pyStripL l ≠ []) :
    (linesOut ls).flatten = sepN ls := by
  induction ls using linesOut.induct with
  | case1 => rfl
  | case2 l => simpa [linesOut, sepN] using flatten_lineOut l (h l (by simp))
  | case3 l l2 rest ih =>
    have h1 : pyStripL l ≠ [] := h l (by simp)
    have h2 : ∀ x ∈ l2 :: rest, pyStripL x ≠ [] := by
      intro x hx
      exact h x (List.mem_cons.mpr (Or.inr hx))
    rw [linesOut, List.flatten_append, List.flatten_append,
      flatten_lineOut l h1, ih h2,
      sepN_cons l (l2 :: rest) (by simp)]
    simp

/-- A paragraph all of whose lines have non-whitespace content has
non-whitespace content itself. -/
lemma para_not_blank (p : List Char)
    (hl : ∀ line ∈ splitN p, pyStripL line ≠ []) : pyStripL p ≠ [] := by
  intro h0
  have hall := all_space_of_pyStripL_eq_nil p h0
  rcases hsp : splitN p with _ | ⟨l0, rest⟩
  · exact splitN_ne_nil p hsp
  · refine hl l0 (by rw [hsp]; simp) (pyStripL_eq_nil_of_all l0 ?_)
    intro c hc
    refine hall c ?_
    have : c ∈ sepN (splitN p) := mem_sepN (splitN p) l0 (by rw [hsp]; simp) c hc
    rwa [sepN_splitN] at this

/-- Streaming paragraphs whose every line has non-whitespace content
concatenates to the `"\n\n"`-joined text. -/
lemma flatten_parasOut (ps : List (List Char))
    (hl : ∀ p ∈ ps, ∀ line ∈ splitN p, pyStripL line ≠ []) :
    (parasOut ps).flatten = sepNN ps := by
  induction ps using parasOut.induct with
  | case1 => rfl
  | case2 p hblank =>
    have hp : pyStripL p ≠ [] := para_not_blank p (hl p (by simp))
    exact absurd (by simpa using hblank) hp
  | case3 p hblank =>
    have hp : pyStripL p ≠ [] := para_not_blank p (hl p (by simp))
    rw [parasOut, if_neg (by simpa using hp)]
    have h1 : ∀ l ∈ splitN p, pyStripL l ≠ [] := hl p (by simp)
    rw [flatten_linesOut (splitN p) h1, sepN_splitN]
    rfl
  | case4 p p2 rest ih =>
    have hp : pyStripL p ≠ [] := para_not_blank p (hl p (by simp))
    have h1 : ∀ l ∈ splitN p, pyStripL l ≠ [] := hl p (by simp)
    have h2 : ∀ x ∈ p2 :: rest, ∀ line ∈ splitN x, pyStripL line ≠ [] := by
      intro x hx
      exact hl x (List.mem_cons.mpr (Or.inr hx))
    rw [parasOut, if_neg (by simpa using hp), List.flatten_append,
      List.flatten_append, flatten_linesOut (splitN p) h1, sepN_splitN,
      ih h2, sepNN_cons p (p2 :: rest) (by simp)]
    simp

/-- C3 (counterexample): the typewriter does not preserve every text — the
single-space text is streamed as a bare `"\n\n"`, so the concatenated
chunks differ from the input. -/
theorem c3_stream_counterexample : typewriterConcat " " ≠ " " := by decide

/-- C3 (amended): for every text whose every line (splitting paragraphs on
`"\n\n"` and lines on `"\n"`) has non-whitespace content, concatenating in
order all chunks yielded by the typewriter streamer equals the text
exactly. -/
theorem c3_stream_concat_exact (t : String)
    (h : ∀ p ∈ splitNN t.toList, ∀ line ∈ splitN p, pyStripL line ≠ []) :
    typewriterConcat t = t := by
  unfold typewriterConcat typewriterOutputL
  by_cases he : t.toList.isEmpty
  · rw [if_pos he]
    have h0 : t.toList = [] := by simpa using he
    cases t with
    | mk data =>
      simp only [String.toList] at h0
      simp [h0]
  · rw [if_neg he, flatten_parasOut (splitNN t.toList) h, sepNN_splitNN]
    rfl

/-- C3 (witness): a concrete two-paragraph text is streamed
character-exactly. -/
theorem c3_stream_witness : typewriterConcat "ab\ncd\n\nef" = "ab\ncd\n\nef" :=
  c3_stream_concat_exact "ab\ncd\n\nef" (by decide)

/-- C6: after every completed exchange the history holds at most 8
entries; the update keeps exactly the most recent 8 entries (FIFO eviction
of the oldest); and after 5 exchanges from a fresh state exactly the
entries of the last 4 exchanges remain. -/
theorem c6_history_fifo (s : AgentState) (q r : String) :
    (updateConversationHistory s q r).history.length ≤ 8
    ∧ (updateConversationHistory s q r).history
        = (s.history ++ [ConvTurn.mk "user" q, ConvTurn.mk "assistant" r]).drop
            ((s.history ++ [ConvTurn.mk "user" q, ConvTurn.mk "assistant" r]).length - 8)
    ∧ (List.foldl (fun st p => updateConversationHistory st p.1 p.2)
        resetConversation
        [("q1", "r1"), ("q2", "r2"), ("q3", "r3"), ("q4", "r4"), ("q5", "r5")]).history
      = [⟨"user", "q2"⟩, ⟨"assistant", "r2"⟩, ⟨"user", "q3"⟩, ⟨"assistant", "r3"⟩,
         ⟨"user", "q4"⟩, ⟨"assistant", "r4"⟩, ⟨"user", "q5"⟩, ⟨"assistant", "r5"⟩] := by
  refine ⟨?_, ?_, by decide⟩
  · simp only [updateConversationHistory]
    split
    · rename_i hgt
      simp only [List.length_drop]
      omega
    · rename_i hle
      simp only [List.length_append] at hle ⊢
      omega
  · simp only [updateConversationHistory]
    split
    · rfl
    · rename_i hle
      rw [Nat.sub_eq_zero_of_le (Nat.le_of_not_lt hle), List.drop_zero]

/-- C7: once the interaction count has reached the configured maximum,
every further query returns the fixed advisory message and leaves the
state (count and history) unchanged; an explicit reset zeroes the counter
and clears the history, after which processing proceeds normally (the
count increments and the streamed response is returned). -/
theorem c7_budget_blocks (s : AgentState) (q resp q2 resp2 : String)
    (h : MAX_INTERACTION_COUNT ≤ s.count) :
    processQuery s q resp = ("已达到最大交互次数。请重新开始对话。\n", s)
    ∧ resetConversation = AgentState.mk [] 0
    ∧ (processQuery resetConversation q2 resp2).2.count = 1
    ∧ (processQuery resetConversation q2 resp2).1 = typewriterConcat resp2 := by
  refine ⟨?_, rfl, ?_, ?_⟩
  · unfold processQuery
    rw [if_pos h]
  · unfold processQuery
    rw [if_neg (by decide)]
    rfl
  · unfold processQuery
    rw [if_neg (by decide)]

/-- C7 (witness): a state at the maximum count of 5 is blocked with the
advisory message and left unchanged. -/
theorem c7_budget_witness :
    processQuery (AgentState.mk [] 5) "query" "resp"
      = ("已达到最大交互次数。请重新开始对话。\n", AgentState.mk [] 5) :=
  (c7_budget_blocks (AgentState.mk [] 5) "query" "resp" "q2" "r2"
    (by decide)).1

/-- C8: `add_knowledge` appends exactly one record whose id is
`max(existing ids) + 1` (or `1` on an empty store), the rebuilt embedding
matrix has one row per record, and on the 4 seeded default records the new
record has id 5 and the matrix has 5 rows. -/
theorem c8_add_knowledge {D : ℕ} (embed : String → Fin D → ℚ)
    (data : List KBRecord) (ktype : String) (tags : List String)
    (content : String) :
    (addKnowledge data ktype tags content).length = data.length + 1
    ∧ (buildVectorDb embed (addKnowledge data ktype tags content)).length
        = data.length + 1
    ∧ (addKnowledge data ktype tags content).getLast?
        = some ⟨if 0 < data.length
                then ((data.map (fun rec => rec.id)).max?.getD 0) + 1 else 1,
                ktype, tags, content⟩
    ∧ (addKnowledge defaultKnowledge "fragment" ["测试"] "新内容").getLast?.map
        (fun rec => rec.id) = some 5
    ∧ (addKnowledge defaultKnowledge "fragment" ["测试"] "新内容").length = 5
    ∧ (buildVectorDb embed
        (addKnowledge defaultKnowledge "fragment" ["测试"] "新内容")).length
        = 5 := by
  refine ⟨?_, ?_, ?_, by decide, by decide, ?_⟩
  · simp [addKnowledge]
  · simp [buildVectorDb, addKnowledge]
  · simp [addKnowledge]
  · simp [buildVectorDb, addKnowledge, defaultKnowledge]

/-- C10: `validate_protein_sequence` reports valid exactly when every
character of the upper-cased, stripped input is one of the twenty amino
acids; the reported length is that of the normalized string; the invalid
characters are exactly those outside the alphabet, in order; and the
cleaned sequence is the normalized string when valid and `none`
otherwise. -/
theorem c10_validate_sequence (s : String) :
    ((validate_protein_sequence s).is_valid = true ↔
      ∀ c ∈ (pyStrip (pyUpper s)).toList, c ∈ validAminoAcids)
    ∧ (validate_protein_sequence s).length = (pyStrip (pyUpper s)).length
    ∧ (validate_protein_sequence s).invalid_chars
        = (pyStrip (pyUpper s)).toList.filter
            (fun c => !(validAminoAcids.contains c))
    ∧ ((validate_protein_sequence s).is_valid = true →
        (validate_protein_sequence s).cleaned_sequence
          = some (pyStrip (pyUpper s)))
    ∧ ((validate_protein_sequence s).is_valid = false →
        (validate_protein_sequence s).cleaned_sequence = none) := by
  unfold validate_protein_sequence
  refine ⟨?_, rfl, rfl, ?_, ?_⟩
  · simp only [decide_eq_true_eq, List.length_eq_zero, List.filter_eq_nil_iff]
    constructor
    · intro hnil c hc
      have := hnil c hc
      simpa using this
    · intro hall c hc
      simpa using hall c hc
  · intro hv
    rw [decide_eq_true_eq] at hv
    show (if _ then _ else _) = _
    rw [if_pos hv]
  · intro hv
    rw [decide_eq_false_iff_not] at hv
    show (if _ then _ else _) = _
    rw [if_neg hv]

/-! ## Lemmas about the response pipeline -/

/-- The fallback path always completes with a string: its single
`except` handler converts every exception into a literal error string. -/
lemma fallbackResponseE_ok (d f : ApiResult) :
    ∃ s, fallbackResponseE d f = Except.ok s := by
  unfold fallbackResponseE
  cases h : fallbackBody d f with
  | ok s => exact ⟨s, rfl⟩
  | error e => exact ⟨"备用方案失败: " ++ e, rfl⟩

/-- The primary workflow always completes with a string: a raised
exception is answered by the fallback path, which itself cannot raise. -/
lemma executeWorkflowE_ok (p : Except String String) (d f : ApiResult) :
    ∃ s, executeWorkflowE p d f = Except.ok s := by
  cases p with
  | ok s => exact ⟨_, rfl⟩
  | error e => exact fallbackResponseE_ok d f

/-- C1: while the interaction budget is not exhausted the
response-generation pipeline always completes with a string — any
exception in the primary multi-agent workflow hands over to the two-call
fallback, a fallback whose first call raises yields the literal
`"备用方案失败: ..."` string, and a fallback whose design call returns a
non-200 status yields the literal `"设计阶段API错误: ..."` string; nothing
is re-raised to the caller. -/
theorem c1_pipeline_never_raises (count : ℕ) (primary : Except String String)
    (e m body : String) (st : ℕ) (d1 f1 d2 f2 g : ApiResult)
    (hc : count < MAX_INTERACTION_COUNT) (hst : st ≠ 200) :
    exceptIsOk (generateResponseE count primary d1 f1 d2 f2) = true
    ∧ executeWorkflowE (Except.error e) d1 f1 = fallbackResponseE d1 f1
    ∧ fallbackResponseE (ApiResult.exn m) g
        = Except.ok ("备用方案失败: " ++ m)
    ∧ fallbackResponseE (ApiResult.http st body) g
        = Except.ok ("设计阶段API错误: " ++ toString st) := by
  refine ⟨?_, rfl, rfl, ?_⟩
  · unfold generateResponseE
    rw [if_neg (Nat.not_le_of_lt hc)]
    obtain ⟨r, hr⟩ := executeWorkflowE_ok primary d1 f1
    rw [hr]
    show exceptIsOk
      (match (if r = "" ∨ (pyStrip r).length < 20 then fallbackResponseE d2 f2
              else Except.ok r) with
       | Except.error err => Except.error err
       | Except.ok r2 => Except.ok (typewriterConcat r2)) = true
    by_cases hcond : r = "" ∨ (pyStrip r).length < 20
    · rw [if_pos hcond]
      obtain ⟨s2, hs2⟩ := fallbackResponseE_ok d2 f2
      rw [hs2]
      rfl
    · rw [if_neg hcond]
      rfl
  · unfold fallbackResponseE fallbackBody httpCall
    simp only [if_pos hst]

/-- C1 (witness): a budget of 0 of 5 interactions used, a primary workflow
that raised, and fallback calls that raise as well still deliver a
string. -/
theorem c1_pipeline_witness :
    exceptIsOk (generateResponseE 0 (Except.error "boom") (ApiResult.exn "x")
      (ApiResult.exn "x") (ApiResult.exn "y") (ApiResult.exn "y")) = true :=
  (c1_pipeline_never_raises 0 (Except.error "boom") "e" "m" "body" 500
    (ApiResult.exn "x") (ApiResult.exn "x") (ApiResult.exn "y")
    (ApiResult.exn "y") (ApiResult.exn "g") (by decide) (by decide)).1

/-- C4: the fallback embedding of a text does not depend on the prior
global RNG state (the seed derived from the stable hash of the text
overwrites it), the vector has the provider's fixed dimension 384, and —
whenever the drawn vector is nonzero, which the source's norm guard
checks — the result is L2-normalized (its sum of squares is 1). -/
theorem c4_fallback_embedding_deterministic {σ : Type} (M : NumpyRng σ)
    (md5seed : String → ℕ) (t : String) (s0 s1 : σ)
    (h : 0 < sumSq (M.randn384 (M.seedState (md5seed t))).1) :
    (generateFallbackEmbedding M md5seed t s0).1
      = (generateFallbackEmbedding M md5seed t s1).1
    ∧ (List.ofFn (generateFallbackEmbedding M md5seed t s0).1).length = 384
    ∧ sumSq (generateFallbackEmbedding M md5seed t s0).1 = 1 := by
  refine ⟨rfl, List.length_ofFn _, ?_⟩
  have hs : 0 < Real.sqrt (sumSq (M.randn384 (M.seedState (md5seed t))).1) :=
    Real.sqrt_pos.mpr h
  show sumSq (l2normalize (M.randn384 (M.seedState (md5seed t))).1) = 1
  unfold l2normalize
  rw [if_pos hs]
  unfold sumSq at h ⊢
  rw [show (∑ i, ((M.randn384 (M.seedState (md5seed t))).1 i /
      Real.sqrt (∑ j, (M.randn384 (M.seedState (md5seed t))).1 j ^ 2)) ^ 2)
    = (∑ i, (M.randn384 (M.seedState (md5seed t))).1 i ^ 2) /
      Real.sqrt (∑ j, (M.randn384 (M.seedState (md5seed t))).1 j ^ 2) ^ 2 from by
    rw [Finset.sum_div]
    exact Finset.sum_congr rfl (fun i _ => div_pow _ _ 2)]
  rw [Real.sq_sqrt (le_of_lt h)]
  exact div_self (ne_of_gt h)

/-- C4 (witness): with a concrete RNG drawing the first standard basis
vector, the fallback embedding is exactly normalized. -/
theorem c4_fallback_embedding_witness :
    sumSq (generateFallbackEmbedding unitRng (fun _ => 0) "abc" ()).1 = 1 := by
  have hval : sumSq (unitRng.randn384 (unitRng.seedState 0)).1 = 1 := by
    unfold unitRng sumSq
    have hsq : ∀ i : Fin 384,
        ((if i = 0 then (1:ℝ) else 0)) ^ 2 = if i = 0 then (1:ℝ) else 0 := by
      intro i
      split <;> norm_num
    rw [Finset.sum_congr rfl (fun i _ => hsq i)]
    simp
  have h : 0 < sumSq (unitRng.randn384 (unitRng.seedState 0)).1 := by
    rw [hval]
    norm_num
  exact (c4_fallback_embedding_deterministic unitRng (fun _ => 0) "abc" () () h).2.2

/-! ## Lemmas about embedding-similarity retrieval -/

/-- The stable argsort is sorted under its index order. -/
lemma argsortStable_sorted (sims : List ℚ) :
    (argsortStable sims).Pairwise (argRel sims) :=
  List.sorted_insertionSort (argRel sims) (List.range sims.length)

/-- The stable argsort is a permutation of the index range. -/
lemma argsortStable_perm (sims : List ℚ) :
    (argsortStable sims).Perm (List.range sims.length) :=
  List.perm_insertionSort (argRel sims) (List.range sims.length)

/-- C2 (counterexample): on two records of equal similarity (1 and 1,
as for identical embeddings) with `top_k = 2`, the code returns the
records in reverse store order (the ascending argsort is reversed), not
in original store order as the claim states. -/
theorem c2_retrieve_counterexample :
    retrieveKnowledge [1, 1] [recA, recB] 2
      ≠ retrieveSpecStable [1, 1] [recA, recB] 2 := by decide

/-- C2 (amended): on a non-empty store with `top_k ≥ 1` the code returns
at most `top_k` results ordered by non-increasing similarity; the
returned index sequence is ordered by descending similarity with ties
broken by descending (reverse) store order, and every selected index has
similarity at least that of every unselected index. -/
theorem c2_retrieve_top_k (sims : List ℚ) (data : List KBRecord)
    (top_k : ℕ) (hk : 1 ≤ top_k) (hne : data ≠ []) :
    (retrieveKnowledge sims data top_k).length ≤ top_k
    ∧ (retrieveKnowledge sims data top_k).Pairwise
        (fun a b => b.similarity ≤ a.similarity)
    ∧ (topIndices sims top_k).Pairwise (fun i j => argRel sims j i)
    ∧ (∀ i ∈ topIndices sims top_k, ∀ j ∈ List.range sims.length,
        j ∉ topIndices sims top_k → sims.getD j 0 ≤ sims.getD i 0) := by
  have hlen0 : ¬ data.length = 0 := by
    intro h
    exact hne (List.length_eq_zero.mp h)
  have hk0 : ¬ top_k = 0 := by omega
  have hpair : (topIndices sims top_k).Pairwise (fun i j => argRel sims j i) := by
    unfold topIndices pyTailSlice
    rw [if_neg hk0, List.pairwise_reverse]
    exact (argsortStable_sorted sims).sublist (List.drop_sublist _ _)
  refine ⟨?_, ?_, hpair, ?_⟩
  · unfold retrieveKnowledge
    rw [if_neg hlen0, List.length_map]
    unfold topIndices pyTailSlice
    rw [if_neg hk0, List.length_reverse, List.length_drop]
    omega
  · unfold retrieveKnowledge
    rw [if_neg hlen0, List.pairwise_map]
    refine hpair.imp ?_
    intro i j h
    rcases h with h | ⟨e, _⟩
    · exact le_of_lt h
    · exact le_of_eq e
  · intro i hi j hj hnot
    have hjL : j ∈ argsortStable sims :=
      ((argsortStable_perm sims).mem_iff).mpr hj
    have hiD : i ∈ (argsortStable sims).drop
        ((argsortStable sims).length - top_k) := by
      unfold topIndices pyTailSlice at hi
      rw [if_neg hk0, List.mem_reverse] at hi
      exact hi
    have hjT : j ∈ (argsortStable sims).take
        ((argsortStable sims).length - top_k) := by
      have hsplit := List.take_append_drop
        ((argsortStable sims).length - top_k) (argsortStable sims)
      rw [← hsplit, List.mem_append] at hjL
      rcases hjL with h | h
      · exact h
      · exfalso
        refine hnot ?_
        unfold topIndices pyTailSlice
        rw [if_neg hk0, List.mem_reverse]
        exact h
    have hsor := argsortStable_sorted sims
    rw [← List.take_append_drop ((argsortStable sims).length - top_k)
      (argsortStable sims), List.pairwise_append] at hsor
    have := hsor.2.2 j hjT i hiD
    rcases this with h | ⟨e, _⟩
    · exact le_of_lt h
    · exact le_of_eq e

/-- C2 (witness): a concrete two-record store with distinct similarities
and `top_k = 1` returns at most one result. -/
theorem c2_retrieve_witness :
    (retrieveKnowledge [1, 2] [recA, recB] 1).length ≤ 1 :=
  (c2_retrieve_top_k [1, 2] [recA, recB] 1 (by decide) (by decide)).1

/-! ## Lemmas about keyword-overlap fallback retrieval -/

/-- The claim's score (counting with `countP` over the raw tags) equals
the source's score (filtering the lowercased tags). -/
lemma specScore_eq_fallbackScore (query : String) (item : KBRecord) :
    specScore query item = fallbackScore query item := by
  unfold specScore fallbackScore
  congr 1
  rw [List.countP_eq_length_filter, List.filter_map, List.length_map]
  rfl

/-- The records the source keeps (via `filterMap`) are exactly the
positive-score records mapped to results, as the claim words it. -/
lemma fallback_keep_eq (query : String) (data : List KBRecord) :
    data.filterMap (fun item =>
        if 0 < fallbackScore query item then some (mkFallbackResult query item)
        else none)
      = (data.filter (fun item => 0 < specScore query item)).map
          (fun item =>
            RetrievalResult.mk item.content
              (min (specScore query item / 3) (9/10)) item.ktype) := by
  induction data with
  | nil => rfl
  | cons a l ih =>
    rw [List.filterMap_cons, List.filter_cons]
    by_cases h : 0 < fallbackScore query a
    · have hd : decide (0 < specScore query a) = true := by
        rw [specScore_eq_fallbackScore]
        exact decide_eq_true h
      rw [if_pos h, hd, if_pos rfl, List.map_cons, ih]
      unfold mkFallbackResult
      rw [specScore_eq_fallbackScore]
    · have hd : decide (0 < specScore query a) = false := by
        rw [specScore_eq_fallbackScore]
        exact decide_eq_false h
      rw [if_neg h, hd]
      simpa using ih

/-- C5: the keyword-overlap fallback equals its claim-side description —
keep exactly the records of strictly positive overlap score, report
similarity `min(score/3, 0.9)`, sort by descending similarity, truncate to
`top_k`; the output is sorted non-increasingly, has at most `top_k`
elements, and every reported similarity is capped at 0.9. -/
theorem c5_keyword_fallback (query : String) (data : List KBRecord)
    (top_k : ℕ) :
    fallbackRetrieval query data top_k = specFallbackRetrieval query data top_k
    ∧ (fallbackRetrieval query data top_k).Pairwise simGE
    ∧ (fallbackRetrieval query data top_k).length ≤ top_k
    ∧ ∀ res ∈ fallbackRetrieval query data top_k, res.similarity ≤ 9/10 := by
  refine ⟨?_, ?_, ?_, ?_⟩
  · unfold fallbackRetrieval specFallbackRetrieval
    rw [fallback_keep_eq]
  · exact (List.sorted_insertionSort simGE _).sublist (List.take_sublist _ _)
  · unfold fallbackRetrieval
    rw [List.length_take]
    exact min_le_left _ _
  · intro res hres
    unfold fallbackRetrieval at hres
    have h1 := List.mem_of_mem_take hres
    have h2 := (List.perm_insertionSort simGE _).mem_iff.mp h1
    rcases List.mem_filterMap.mp h2 with ⟨item, hitem, heq⟩
    by_cases h : 0 < fallbackScore query item
    · rw [if_pos h] at heq
      injection heq with heq
      rw [← heq]
      exact min_le_right _ _
    · rw [if_neg h] at heq
      exact absurd heq (by simp)

/-- C5 (witness): the fallback and its claim-side description agree on the
seeded default store for a concrete query. -/
theorem c5_keyword_fallback_witness :
    fallbackRetrieval "蛋白质" defaultKnowledge 3
      = specFallbackRetrieval "蛋白质" defaultKnowledge 3 :=
  (c5_keyword_fallback "蛋白质" defaultKnowledge 3).1

/-- C9: every result the keyword fallback returns comes from a record of
strictly positive overlap score (its reported similarity is positive), and
when no record shares a tag substring or a query word with the query the
fallback returns the empty list even on a non-empty store. -/
theorem c9_fallback_only_positive (query : String) (data : List KBRecord)
    (top_k : ℕ) :
    (∀ res ∈ fallbackRetrieval query data top_k, 0 < res.similarity)
    ∧ ((∀ item ∈ data,
          ((item.tags.map pyLower).filter
              (fun tag => isSubL tag.toList (pyLower query).toList)).length = 0
          ∧ (pyWords (pyLower query).toList).any
              (fun w => isSubL w (pyLower item.content).toList) = false) →
        fallbackRetrieval query data top_k = []) := by
  constructor
  · intro res hres
    unfold fallbackRetrieval at hres
    have h1 := List.mem_of_mem_take hres
    have h2 := (List.perm_insertionSort simGE _).mem_iff.mp h1
    rcases List.mem_filterMap.mp h2 with ⟨item, hitem, heq⟩
    by_cases h : 0 < fallbackScore query item
    · rw [if_pos h] at heq
      injection heq with heq
      rw [← heq]
      refine lt_min ?_ ?_
      · exact div_pos h (by norm_num)
      · norm_num
    · rw [if_neg h] at heq
      exact absurd heq (by simp)
  · intro h
    unfold fallbackRetrieval
    have hnil : data.filterMap (fun item =>
        if 0 < fallbackScore query item then some (mkFallbackResult query item)
        else none) = [] := by
      rw [List.filterMap_eq_nil_iff]
      intro item hitem
      obtain ⟨h1, h2⟩ := h item hitem
      have hscore : fallbackScore query item = 0 := by
        unfold fallbackScore
        show (((List.filter (fun tag => isSubL tag.toList (pyLower query).toList)
            (List.map pyLower item.tags)).length : ℚ)
          + if ((pyWords (pyLower query).toList).any
              fun w => isSubL w (pyLower item.content).toList) = true
            then 1/2 else 0) = 0
        rw [h1, h2]
        norm_num
      rw [if_neg (by simp [hscore])]
    rw [hnil]
    simp

/-- C9 (witness): the query `"qqq"` shares no tag and no word with the 4
seeded default records, so the fallback returns the empty list. -/
theorem c9_fallback_witness :
    fallbackRetrieval "qqq" defaultKnowledge 3 = [] :=
  (c9_fallback_only_positive "qqq" defaultKnowledge 3).2 (by decide)
